import Mathlib

/-!
Verification development for the ScriptySphere client-side codebase:
the service worker (`sw.js`, caching strategies and request
classification), the members directory (`assets/js/members.js`,
filtering / sorting / pagination), the blog system
(`assets/js/analytics.js`), and the forms handler
(`assets/js/forms.js`, draft persistence and analytics buffering).

Strings are embedded as `List Char`; JavaScript string operations
(`startsWith`, `endsWith`, `includes`, regular-expression suffix
tests) are embedded as structurally recursive list functions so that
every predicate is decidable and kernel-evaluable.
-/

/-- Embedding of JavaScript strings: a list of characters. -/
abbrev Str := List Char

/-- Embedding of `s.startsWith(p)` on JavaScript strings. -/
def strStartsWith (s p : Str) : Bool := p.isPrefixOf s

/-- Embedding of `s.endsWith(p)` on JavaScript strings. -/
def strEndsWith (s p : Str) : Bool := p.isSuffixOf s

/-- Embedding of `s.includes(sub)`: `sub` occurs contiguously in `s`. -/
def strIncludes (s sub : Str) : Bool :=
  match s with
  | [] => sub.isEmpty
  | _ :: t => sub.isPrefixOf s || strIncludes t sub

namespace SW

/-!
## Service worker model (`sw.js`)

A URL is modelled by its pathname and hostname; `selfHost` stands for
`self.location.hostname`.  Responses carry a status and a body;
`Response.ok` is the Fetch API's 2xx test.  The network is a function
from URLs to `Option Response` (`none` = the fetch promise rejects).
The cache storage has the two partitions the worker uses
(`scriptysphere-static-v1` and `scriptysphere-dynamic-v1`); each is an
association list in insertion order, as exposed by `cache.keys()`.
-/

structure URL where
  pathname : Str
  hostname : Str
deriving DecidableEq, Repr

structure Response where
  status : Nat
  body : Str
deriving DecidableEq, Repr

/-- The Fetch API `response.ok` test: status in the inclusive range 200–299. -/
def Response.ok (r : Response) : Bool := 200 ≤ r.status && r.status ≤ 299

/-- One cache partition: entries in insertion order. -/
abbrev Cache := List (URL × Response)

/-- Embedding of `cache.match(request)`: first entry stored under the request URL. -/
def cacheMatch (c : Cache) (u : URL) : Option Response :=
  match c with
  | [] => none
  | (k, v) :: t => if k = u then some v else cacheMatch t u

/-- Embedding of `cache.put(request, response)`: overwrite in place, else append. -/
def cachePut (c : Cache) (u : URL) (v : Response) : Cache :=
  match c with
  | [] => [(u, v)]
  | (k, w) :: t => if k = u then (u, v) :: t else (k, w) :: cachePut t u v

/-- The two cache partitions the worker touches. -/
structure CacheState where
  staticC : Cache
  dynamicC : Cache
deriving DecidableEq, Repr

/-- Embedding of `caches.match(request)`: search every partition, static one first. -/
def cachesMatch (st : CacheState) (u : URL) : Option Response :=
  match cacheMatch st.staticC u with
  | some v => some v
  | none => cacheMatch st.dynamicC u

/-- The extension alternatives of the static-asset regular expression
`/\.(css|js|png|jpg|jpeg|webp|svg|woff|woff2|ttf|eot|ico)$/`. -/
def staticExtensions : List Str :=
  [(".css").data, (".js").data, (".png").data, (".jpg").data, (".jpeg").data,
   (".webp").data, (".svg").data, (".woff").data, (".woff2").data,
   (".ttf").data, (".eot").data, (".ico").data]

/-- Predicate `isStaticAsset(url)` from `sw.js`: the extension regex matches the
pathname, or the pathname starts with `/assets/` or `/partials/`. -/
def isStaticAsset (url : URL) : Bool :=
  staticExtensions.any (fun e => strEndsWith url.pathname e) ||
  strStartsWith url.pathname ("/assets/").data ||
  strStartsWith url.pathname ("/partials/").data

/-- Predicate `isAPIRequest(url)` from `sw.js`: pathname under `/api/`, pathname
containing `.json`, or a cross-origin hostname. -/
def isAPIRequest (selfHost : Str) (url : URL) : Bool :=
  strStartsWith url.pathname ("/api/").data ||
  strIncludes url.pathname (".json").data ||
  !(url.hostname = selfHost : Bool)

/-- Predicate `isPageRequest(url)` from `sw.js`: trailing slash, `.html` suffix, or
an extensionless same-origin path. -/
def isPageRequest (selfHost : Str) (url : URL) : Bool :=
  strEndsWith url.pathname ("/").data ||
  strEndsWith url.pathname (".html").data ||
  (!strIncludes url.pathname (".").data && (url.hostname = selfHost : Bool))

/-- The three caching policies the fetch classifier can apply. -/
inductive Policy where
  | cacheFirst
  | networkFirst
  | staleWhileRevalidate
deriving DecidableEq, Repr

/-- The fetch listener's dispatch on a GET http(s) request: an ordered
if/else chain over the three predicates, defaulting to network-first. -/
def classify (selfHost : Str) (url : URL) : Policy :=
  if isStaticAsset url then .cacheFirst
  else if isAPIRequest selfHost url then .networkFirst
  else if isPageRequest selfHost url then .staleWhileRevalidate
  else .networkFirst

/-- The synthetic failure response `new Response('Offline', { status: 503 })`. -/
def offlineResponse : Response := ⟨503, ("Offline").data⟩

/-- The URL of the designated offline fallback document `/offline.html`. -/
def offlineURL (selfHost : Str) : URL := ⟨("/offline.html").data, selfHost⟩

/-- Result of running one strategy: the value the returned promise
resolves with (`none` embeds resolving with `undefined`; a strategy
never rejects), the cache storage afterwards, and whether a network
fetch for the request was issued. -/
structure StrategyResult where
  response : Option Response
  state : CacheState
  fetched : Bool
deriving DecidableEq, Repr

/-- Strategy `cacheFirstStrategy(request)` from `sw.js`: return the cached
response if any; else fetch, store a copy in the static partition when
the response is ok, and return it; on a network error return the
synthetic 503. -/
def cacheFirstStrategy (net : URL → Option Response) (st : CacheState)
    (req : URL) : StrategyResult :=
  match cachesMatch st req with
  | some cached => ⟨some cached, st, false⟩
  | none =>
    match net req with
    | some resp =>
      ⟨some resp,
       if resp.ok then { st with staticC := cachePut st.staticC req resp } else st,
       true⟩
    | none => ⟨some offlineResponse, st, true⟩

/-- Pruning `cleanupCache(cacheName, maxEntries)` from `sw.js`: when the entry
count exceeds the bound, delete the oldest-inserted entries down to the
bound. -/
def cleanupCache (c : Cache) (maxEntries : Nat) : Cache :=
  if c.length > maxEntries then c.drop (c.length - maxEntries) else c

/-- Strategy `networkFirstStrategy(request)` from `sw.js`: try the network; on an
ok response store a copy in the dynamic partition and prune it to 100
entries; on a network error fall back to `caches.match(request)`, then
to `caches.match('/offline.html')` for page requests, then to the
synthetic 503. -/
def networkFirstStrategy (selfHost : Str) (net : URL → Option Response)
    (st : CacheState) (req : URL) : StrategyResult :=
  match net req with
  | some resp =>
    ⟨some resp,
     if resp.ok then
       { st with dynamicC := cleanupCache (cachePut st.dynamicC req resp) 100 }
     else st,
     true⟩
  | none =>
    match cachesMatch st req with
    | some cached => ⟨some cached, st, true⟩
    | none =>
      if isPageRequest selfHost req then
        ⟨cachesMatch st (offlineURL selfHost), st, true⟩
      else
        ⟨some offlineResponse, st, true⟩

/-- Strategy `staleWhileRevalidateStrategy(request)` from `sw.js`: look up the
dynamic partition; the revalidation fetch stores an ok response back
into it; the promise resolves with `cachedResponse || await
networkPromise`, where the network promise's rejection handler yields
the (possibly absent) cached response. -/
def staleWhileRevalidateStrategy (net : URL → Option Response)
    (st : CacheState) (req : URL) : StrategyResult :=
  let cached := cacheMatch st.dynamicC req
  let st' :=
    match net req with
    | some resp =>
      if resp.ok then { st with dynamicC := cachePut st.dynamicC req resp } else st
    | none => st
  match cached with
  | some c => ⟨some c, st', true⟩
  | none =>
    match net req with
    | some resp => ⟨some resp, st', true⟩
    | none => ⟨none, st', true⟩

/-!
### Installation (`install` listener)

`STATIC_ASSETS` is the fixed manifest.  `cache.addAll` fetches every
listed URL and rejects if any fetch fails or yields a non-ok response;
on success it stores all of them.  The promise handed to
`event.waitUntil` is `open.then(addAll).then(skipWaiting).catch(log)`:
the trailing `.catch` turns any rejection into a fulfilled promise, so
the install event always completes successfully; `skipWaiting` runs
only on the success path.
-/

/-- The fixed static manifest `STATIC_ASSETS` (pathnames, same-origin). -/
def staticAssets (selfHost : Str) : List URL :=
  [("/"), ("/offline.html"), ("/assets/css/base.css"),
   ("/assets/css/components.css"), ("/assets/css/utilities.css"),
   ("/assets/css/themes.css"), ("/assets/js/main.js"),
   ("/assets/js/partials.js"), ("/assets/js/i18n.js"),
   ("/assets/js/theme.js"), ("/assets/img/logo.svg"),
   ("/assets/img/icons.svg"), ("/assets/i18n/en.json"),
   ("/assets/i18n/bn.json"), ("/partials/header.html"),
   ("/partials/nav.html"), ("/partials/footer.html"),
   ("/partials/cookie.html"), ("/partials/cta.html"),
   ("/partials/modal.html"), ("/manifest.json")].map
    (fun p => ⟨p.data, selfHost⟩)

/-- Embedding of `cache.addAll(urls)`: fetch each URL; reject (`none`) as soon as a
fetch fails or returns a non-ok response, else store every response. -/
def addAll (net : URL → Option Response) (c : Cache) : List URL → Option Cache
  | [] => some c
  | u :: rest =>
    match net u with
    | some resp => if resp.ok then addAll net (cachePut c u resp) rest else none
    | none => none

/-- Outcome of the install event's `waitUntil` promise. -/
structure InstallOutcome where
  /-- the `waitUntil` promise fulfilled, i.e. installation completed -/
  installCompleted : Bool
  /-- `self.skipWaiting()` was invoked -/
  skippedWaiting : Bool
  /-- the static partition afterwards -/
  staticC : Cache
deriving DecidableEq, Repr

/-- The install listener from `sw.js`: populate the static partition
from the manifest; any failure is caught by the final `.catch`, which
logs and fulfils the promise. -/
def installStep (selfHost : Str) (net : URL → Option Response) : InstallOutcome :=
  match addAll net [] (staticAssets selfHost) with
  | some c => ⟨true, true, c⟩
  | none => ⟨true, false, []⟩

end SW

namespace Members

/-!
## Members directory model (`assets/js/members.js`)

A member record carries the fields the directory reads; JS string
fields are `Str`, `skills` is a string array, `joinedDate` a timestamp
(the value of `new Date(m.joinedDate || 0)`).
-/

structure Member where
  name : Str
  role : Str
  division : Str
  district : Str
  upazila : Str
  skills : List Str
  joinedDate : Int
deriving DecidableEq, Repr

/-- Embedding of `s.toLowerCase()`. -/
def toLowerStr (s : Str) : Str := s.map Char.toLower

/-- The five filter controls; an empty string means the filter is
inactive (JS falsiness of `''`). The search term has already been
lowercased and trimmed by the input listener. -/
structure Filters where
  search : Str
  division : Str
  district : Str
  upazila : Str
  role : Str
deriving DecidableEq, Repr

/-- Predicate `matchesSearch(member, searchTerm)`: some searched field, lowercased,
contains the term (`skills` joined with spaces; absent fields read as `''`). -/
def matchesSearch (m : Member) (searchTerm : Str) : Bool :=
  let searchFields :=
    [m.name, m.role, m.division, m.district, m.upazila,
     List.intercalate [' '] m.skills].map toLowerStr
  searchFields.any (fun field => strIncludes field searchTerm)

/-- The filter callback inside `applyFilters`: early `return false` on
the first active predicate a member fails, `return true` otherwise. -/
def memberPasses (f : Filters) (m : Member) : Bool :=
  if !f.search.isEmpty && !matchesSearch m f.search then false
  else if !f.division.isEmpty && !(m.division = f.division : Bool) then false
  else if !f.district.isEmpty && !(m.district = f.district : Bool) then false
  else if !f.upazila.isEmpty && !(m.upazila = f.upazila : Bool) then false
  else if !f.role.isEmpty && !(m.role = f.role : Bool) then false
  else true

/-- The values of the sort select (`this.sortBy`); `other` stands for any
value outside the switch, whose comparator returns 0. -/
inductive SortKey where
  | name
  | recent
  | role
  | other
deriving DecidableEq, Repr

/-- Lexicographic code-point comparison: the embedding of
`a.localeCompare(b) <= 0`. -/
def strLe (a b : Str) : Bool :=
  match a, b with
  | [], _ => true
  | _ :: _, [] => false
  | x :: xs, y :: ys => if x = y then strLe xs ys else (x.toNat < y.toNat : Bool)

/-- Test `comparator(a, b) <= 0` for the switch in `sortMembers`. -/
def memberLe (k : SortKey) (a b : Member) : Bool :=
  match k with
  | .name => strLe a.name b.name
  | .recent => b.joinedDate ≤ a.joinedDate
  | .role => strLe a.role b.role
  | .other => true

/-- Embedding of `sortMembers()`: stable sort of the filtered list by the selected
comparator. -/
def sortMembers (k : SortKey) (ms : List Member) : List Member :=
  List.insertionSort (fun a b => memberLe k a b = true) ms

/-- Embedding of `applyFilters()`: filter the full collection by every active
predicate, then sort the result (pagination reads this list). -/
def applyFilters (f : Filters) (k : SortKey) (ms : List Member) : List Member :=
  sortMembers k (ms.filter (memberPasses f))

/-- The page window `slice((page-1)*perPage, (page-1)*perPage + perPage)`
used by `renderMembers` (`itemsPerPage = 12`) and by the blog's
`renderPosts` (`postsPerPage = 9`). -/
def pageWindow (l : List α) (perPage page : Nat) : List α :=
  (l.drop ((page - 1) * perPage)).take perPage

/-- Page count `Math.ceil(length / perPage)` from `renderPagination`, as natural
ceiling division. -/
def pageCount (len perPage : Nat) : Nat := (len + perPage - 1) / perPage

end Members

namespace Blog

/-!
## Blog system model (`BlogSystem` in `assets/js/analytics.js`)

A post carries the fields the listing reads; `date` is the timestamp
value of `new Date(post.date)`.
-/

structure Post where
  title : Str
  category : Str
  date : Int
deriving DecidableEq, Repr

/-- The comparator `(a, b) => new Date(b.date) - new Date(a.date)`
accepted (`<= 0`) by the sort: date descending. -/
def dateDescLe (a b : Post) : Prop := b.date ≤ a.date

instance : DecidableRel dateDescLe := fun a b => inferInstanceAs (Decidable (b.date ≤ a.date))

/-- Embedding of `filteredPosts.sort((a, b) => new Date(b.date) - new Date(a.date))`:
stable sort, newest first. -/
def sortByDateDesc (l : List Post) : List Post := List.insertionSort dateDescLe l

/-- The fields of `BlogSystem` the listing logic reads. -/
structure BlogState where
  posts : List Post
  filtered : List Post
deriving DecidableEq, Repr

/-- Embedding of `loadPosts()`: keep the fetched array as `this.posts`, copy it to
`this.filteredPosts`, and sort only the copy by date descending. -/
def loadPosts (posts : List Post) : BlogState :=
  ⟨posts, sortByDateDesc posts⟩

/-- The category test in `filterPosts`:
`post.category.toLowerCase() === currentCategory.toLowerCase()`. -/
def categoryMatches (cat : Str) (p : Post) : Bool :=
  Members.toLowerStr p.category = Members.toLowerStr cat

/-- Embedding of `filterPosts()`: with a category selected, rebuild `filteredPosts`
from the master `this.posts` array by the category test; with none,
copy the master array.  No sort is applied here. -/
def filterPosts (st : BlogState) (cat : Str) : BlogState :=
  if !cat.isEmpty then
    { st with filtered := st.posts.filter (categoryMatches cat) }
  else
    { st with filtered := st.posts }

end Blog

namespace Forms

/-!
## Forms handler model (`FormsHandler` in `assets/js/forms.js`)

A form is its list of named fields in document order; `FormData`
iteration and `querySelector('[name=k]')` both follow that order.
Session storage is modelled by the parsed JSON values themselves
(the JSON round trip through `sessionStorage` is the identity).
-/

structure Field where
  name : Str
  value : Str
deriving DecidableEq, Repr

abbrev Form := List Field

/-- The honeypot field name `'bot-field'`. -/
def botField : Str := ("bot-field").data

/-- JS object assignment `data[key] = value`: overwrite the existing key
in place, else append a new key. -/
def objInsert (d : List (Str × Str)) (k v : Str) : List (Str × Str) :=
  match d with
  | [] => [(k, v)]
  | (k', v') :: t => if k' = k then (k, v) :: t else (k', v') :: objInsert t k v

/-- Embedding of `saveFormData(form)`: iterate the form's entries, storing
`data[key] = value` for every key other than the honeypot, and persist
the resulting object. -/
def saveFormData (f : Form) : List (Str × Str) :=
  f.foldl
    (fun d fld => if fld.name = botField then d else objInsert d fld.name fld.value) []

/-- One restore step: `form.querySelector('[name=k]')` finds the first
field named `k`; its value is assigned unless it is the honeypot. -/
def setFieldValue (g : Form) (k v : Str) : Form :=
  match g with
  | [] => []
  | fld :: t =>
    if fld.name = k then
      if fld.name = botField then fld :: t else ⟨fld.name, v⟩ :: t
    else fld :: setFieldValue t k v

/-- Embedding of `restoreFormData(form)`: iterate the saved object's entries in
insertion order, assigning each into the form. -/
def restoreFormData (d : List (Str × Str)) (g : Form) : Form :=
  d.foldl (fun g' kv => setFieldValue g' kv.1 kv.2) g

/-- One tracked analytics event (`trackFormSubmission`). -/
structure AnalyticsEvent where
  eventType : Str
  form : Str
  status : Str
  timestamp : Int
  language : Str
deriving DecidableEq, Repr

/-- The parsed `cookie-consent` preferences, as read by
`trackFormSubmission`. -/
structure ConsentPrefs where
  analytics : Bool
deriving DecidableEq, Repr

/-- Embedding of `trackFormSubmission`: without stored consent, or with analytics
declined, the buffer is untouched; otherwise push the event and, if the
list then exceeds 20 entries, `shift()` the oldest one off. -/
def trackFormSubmission (consent : Option ConsentPrefs)
    (stored : List AnalyticsEvent) (e : AnalyticsEvent) : List AnalyticsEvent :=
  match consent with
  | none => stored
  | some p =>
    if p.analytics then
      let s := stored ++ [e]
      if s.length > 20 then s.tail else s
    else stored

end Forms

/-!
## Concrete inputs used by the evaluations below
-/

/-- A concrete same-origin hostname standing for `self.location.hostname`. -/
def exampleHost : Str := ("scriptysphere.org").data

/-- The members-data URL, same-origin: it lives under `/assets/` and its
pathname contains `.json`. -/
def membersDataURL : SW.URL := ⟨("/assets/data/members.json").data, exampleHost⟩

/-- A navigable same-origin page URL with a trailing slash. -/
def aboutURL : SW.URL := ⟨("/about/").data, exampleHost⟩

/-- A concrete cached stylesheet entry. -/
def cssURL : SW.URL := ⟨("/assets/css/base.css").data, exampleHost⟩

/-- A concrete ok response for the stylesheet. -/
def cssResp : SW.Response := ⟨200, ("body").data⟩

/-- Cache storage holding only the stylesheet, in the static partition. -/
def stCached : SW.CacheState := ⟨[(cssURL, cssResp)], []⟩

/-- A concrete ok response standing for the cached `/offline.html` document. -/
def offlineDoc : SW.Response := ⟨200, ("offline page").data⟩

/-- Cache storage whose static partition holds the offline fallback document. -/
def stWithFallback : SW.CacheState := ⟨[(SW.offlineURL exampleHost, offlineDoc)], []⟩

/-- A network that fails every fetch (every request promise rejects). -/
def failingNet : SW.URL → Option SW.Response := fun _ => none

/-!
## Claims about the service worker
-/

/-- C1 counterexample: the three classification predicates are not
pairwise mutually exclusive — `/assets/data/members.json` satisfies both
the static-asset test (it lives under `/assets/`) and the API test (its
pathname contains `.json`). -/
theorem classifier_predicates_overlap :
    SW.isStaticAsset membersDataURL = true ∧
    SW.isAPIRequest exampleHost membersDataURL = true := by
  decide

/-- C1 (amended): the predicates can overlap, but the fetch classifier
tests them in a fixed priority order with the first match winning, so
every request is assigned exactly one policy: cache-first exactly on
static assets, stale-while-revalidate exactly on page requests that are
neither static nor API, and network-first in all remaining cases. -/
theorem classify_first_match_wins (selfHost : Str) (u : SW.URL) :
    (SW.classify selfHost u = SW.Policy.cacheFirst ↔ SW.isStaticAsset u = true) ∧
    (SW.classify selfHost u = SW.Policy.staleWhileRevalidate ↔
      SW.isStaticAsset u = false ∧ SW.isAPIRequest selfHost u = false ∧
        SW.isPageRequest selfHost u = true) ∧
    (SW.classify selfHost u = SW.Policy.networkFirst ↔
      SW.isStaticAsset u = false ∧
        (SW.isAPIRequest selfHost u = true ∨ SW.isPageRequest selfHost u = false)) := by
  unfold SW.classify
  cases hs : SW.isStaticAsset u <;>
    cases ha : SW.isAPIRequest selfHost u <;>
      cases hp : SW.isPageRequest selfHost u <;> simp

/-- C1 witness: the overlapping URL above is assigned the cache-first
policy (the static-asset branch wins). -/
theorem classify_first_match_wins_witness :
    SW.classify exampleHost membersDataURL = SW.Policy.cacheFirst :=
  (classify_first_match_wins exampleHost membersDataURL).1.mpr (by decide)

/-- C2 counterexample: with a network on which every fetch fails,
`cache.addAll` over the static manifest rejects, yet the install event
still completes successfully — the trailing `.catch` swallows the
rejection, so installation is not aborted. -/
theorem install_completes_despite_addAll_failure :
    SW.addAll failingNet [] (SW.staticAssets exampleHost) = none ∧
    (SW.installStep exampleHost failingNet).installCompleted = true := by
  decide

/-- C2 (amended): if caching any asset of the static manifest fails, the
rejection is caught and only logged: the install step still completes
successfully, but `skipWaiting` is not invoked and the static partition
is left unpopulated. -/
theorem install_swallows_cache_failure (selfHost : Str)
    (net : SW.URL → Option SW.Response)
    (h : SW.addAll net [] (SW.staticAssets selfHost) = none) :
    SW.installStep selfHost net =
      { installCompleted := true, skippedWaiting := false, staticC := [] } := by
  unfold SW.installStep
  rw [h]

/-- C2 witness: the amended install behaviour at the all-failing network. -/
theorem install_swallows_cache_failure_witness :
    SW.installStep exampleHost failingNet =
      { installCompleted := true, skippedWaiting := false, staticC := [] } :=
  install_swallows_cache_failure exampleHost failingNet (by decide)

/-- C3 counterexample: stale-while-revalidate with no cached entry and a
failing network resolves with `undefined` (`cachedResponse ||
networkPromise` where the rejection handler returns the absent cached
response), not with a response object. -/
theorem staleWhileRevalidate_resolves_undefined :
    (SW.staleWhileRevalidateStrategy failingNet ⟨[], []⟩ aboutURL).response = none := by
  decide

/-- C3 (amended): no strategy ever rejects (each is a total function of
request, cache state and network outcome), and cache-first always
resolves with a response; but stale-while-revalidate resolves with a
response exactly when a dynamic-partition entry exists or the network
succeeds, and network-first resolves with a response except when the
network fails, no entry matches, the request is navigable, and
`/offline.html` is itself uncached. -/
theorem strategies_never_reject (selfHost : Str) (net : SW.URL → Option SW.Response)
    (st : SW.CacheState) (req : SW.URL) :
    (SW.cacheFirstStrategy net st req).response.isSome = true ∧
    ((SW.staleWhileRevalidateStrategy net st req).response.isSome = true ↔
      (SW.cacheMatch st.dynamicC req).isSome = true ∨ (net req).isSome = true) ∧
    ((SW.networkFirstStrategy selfHost net st req).response.isSome = true ↔
      ¬(net req = none ∧ SW.cachesMatch st req = none ∧
        SW.isPageRequest selfHost req = true ∧
        SW.cachesMatch st (SW.offlineURL selfHost) = none)) := by
  refine ⟨?_, ?_, ?_⟩
  · unfold SW.cacheFirstStrategy
    cases h1 : SW.cachesMatch st req <;> cases h2 : net req <;> simp
  · unfold SW.staleWhileRevalidateStrategy
    cases h1 : SW.cacheMatch st.dynamicC req <;> cases h2 : net req <;> simp
  · unfold SW.networkFirstStrategy
    cases h2 : net req <;> cases h1 : SW.cachesMatch st req <;>
      cases hp : SW.isPageRequest selfHost req <;>
        cases h3 : SW.cachesMatch st (SW.offlineURL selfHost) <;> simp [hp]

/-- C3 witness: cache-first at a concrete empty cache and failing
network still resolves with a response (the synthetic 503). -/
theorem strategies_never_reject_witness :
    (SW.cacheFirstStrategy failingNet ⟨[], []⟩ aboutURL).response.isSome = true :=
  (strategies_never_reject exampleHost failingNet ⟨[], []⟩ aboutURL).1

/-- C4: network-first under a failing network: a matching cached entry
is returned as-is; with no match, a navigable request gets the cached
offline fallback document; any other request gets the synthetic 503. -/
theorem networkFirst_failure_fallbacks (selfHost : Str)
    (net : SW.URL → Option SW.Response) (st : SW.CacheState) (req : SW.URL)
    (hnet : net req = none) :
    (∀ c, SW.cachesMatch st req = some c →
      SW.networkFirstStrategy selfHost net st req = ⟨some c, st, true⟩) ∧
    (∀ f, SW.cachesMatch st req = none → SW.isPageRequest selfHost req = true →
      SW.cachesMatch st (SW.offlineURL selfHost) = some f →
      SW.networkFirstStrategy selfHost net st req = ⟨some f, st, true⟩) ∧
    (SW.cachesMatch st req = none → SW.isPageRequest selfHost req = false →
      SW.networkFirstStrategy selfHost net st req =
        ⟨some SW.offlineResponse, st, true⟩) := by
  unfold SW.networkFirstStrategy
  rw [hnet]
  refine ⟨?_, ?_, ?_⟩
  · intro c hc
    rw [hc]
  · intro f hc hp hf
    rw [hc, hp, hf]
    simp
  · intro hc hp
    rw [hc, hp]
    simp

/-- C4 witness: with every fetch failing, no cached entry for `/about/`,
and `/offline.html` cached, the offline document is returned; the
concrete instantiation of the page-fallback branch. -/
theorem networkFirst_failure_fallbacks_witness :
    SW.networkFirstStrategy exampleHost failingNet stWithFallback aboutURL =
      ⟨some offlineDoc, stWithFallback, true⟩ :=
  (networkFirst_failure_fallbacks exampleHost failingNet stWithFallback aboutURL
    rfl).2.1 offlineDoc (by decide) (by decide) (by decide)

/-- C5: cache-first: a cached entry is returned unchanged with no
network fetch; otherwise the network response is returned, a copy being
stored in the static partition exactly when it is ok; and with no entry
and a failing network the synthetic 503 is returned. -/
theorem cacheFirst_spec (net : SW.URL → Option SW.Response) (st : SW.CacheState)
    (req : SW.URL) :
    (∀ c, SW.cachesMatch st req = some c →
      SW.cacheFirstStrategy net st req = ⟨some c, st, false⟩) ∧
    (∀ r, SW.cachesMatch st req = none → net req = some r →
      SW.cacheFirstStrategy net st req =
        ⟨some r,
         if r.ok then { st with staticC := SW.cachePut st.staticC req r } else st,
         true⟩) ∧
    (SW.cachesMatch st req = none → net req = none →
      SW.cacheFirstStrategy net st req = ⟨some SW.offlineResponse, st, true⟩) := by
  unfold SW.cacheFirstStrategy
  refine ⟨?_, ?_, ?_⟩
  · intro c hc
    rw [hc]
  · intro r hc hr
    rw [hc, hr]
  · intro hc hr
    rw [hc, hr]

/-- C5 witness: a cached stylesheet is served from the cache with no
network fetch and an unchanged cache state. -/
theorem cacheFirst_spec_witness :
    SW.cacheFirstStrategy failingNet stCached cssURL =
      ⟨some cssResp, stCached, false⟩ :=
  (cacheFirst_spec failingNet stCached cssURL).1 cssResp (by decide)

/-!
## Claims about the members directory, blog and pagination
-/

/-- The filter callback accepts a member exactly when every active
predicate holds of it (an empty filter string is inactive). -/
theorem memberPasses_iff (f : Members.Filters) (m : Members.Member) :
    Members.memberPasses f m = true ↔
      (f.search ≠ [] → Members.matchesSearch m f.search = true) ∧
      (f.division ≠ [] → m.division = f.division) ∧
      (f.district ≠ [] → m.district = f.district) ∧
      (f.upazila ≠ [] → m.upazila = f.upazila) ∧
      (f.role ≠ [] → m.role = f.role) := by
  unfold Members.memberPasses
  split_ifs with h1 h2 h3 h4 h5 <;> simp_all

/-- C6: the recomputed member collection contains exactly the records of
the full collection that match the search term (when one is active) and
equal each active equality filter's value (conjunctive correctness);
the subsequent sort does not change membership. -/
theorem applyFilters_conjunctive (f : Members.Filters) (k : Members.SortKey)
    (ms : List Members.Member) (m : Members.Member) :
    m ∈ Members.applyFilters f k ms ↔
      m ∈ ms ∧
      (f.search ≠ [] → Members.matchesSearch m f.search = true) ∧
      (f.division ≠ [] → m.division = f.division) ∧
      (f.district ≠ [] → m.district = f.district) ∧
      (f.upazila ≠ [] → m.upazila = f.upazila) ∧
      (f.role ≠ [] → m.role = f.role) := by
  unfold Members.applyFilters Members.sortMembers
  rw [(List.perm_insertionSort _ _).mem_iff, List.mem_filter, memberPasses_iff]

/-- A concrete member record for the evaluations below. -/
def memberExample : Members.Member :=
  ⟨("Rahim").data, ("Lead").data, ("Dhaka").data, ("Gazipur").data,
   ("Kaliakair").data, [("js").data], 10⟩

/-- Active search term and division filter matching `memberExample`. -/
def filtersExample : Members.Filters :=
  ⟨("rahim").data, ("Dhaka").data, [], [], []⟩

/-- C6 witness: the concrete member passes its active search and
division filters and so appears in the filtered collection. -/
theorem applyFilters_conjunctive_witness :
    memberExample ∈
      Members.applyFilters filtersExample Members.SortKey.name [memberExample] :=
  (applyFilters_conjunctive filtersExample Members.SortKey.name [memberExample]
    memberExample).mpr (by decide)

/-- The value `Math.ceil(a / b)` of a division of naturals equals the code's
`(len + per - 1) / per` rounding. -/
theorem natCeil_div_eq (a b : Nat) (hb : 0 < b) :
    ⌈(a : ℚ) / (b : ℚ)⌉₊ = (a + b - 1) / b := by
  have hb' : (0 : ℚ) < (b : ℚ) := by exact_mod_cast hb
  rcases Nat.eq_zero_or_pos a with rfl | ha
  · have h0 : (0 + b - 1) / b = 0 := Nat.div_eq_of_lt (by omega)
    rw [h0, Nat.cast_zero, zero_div, Nat.ceil_zero]
  · have key : ∀ q r : Nat, b * q + r = a + b - 1 → r < b →
        ⌈(a : ℚ) / (b : ℚ)⌉₊ = q := by
      intro q r hqr hr
      obtain ⟨a', rfl⟩ : ∃ a', a = a' + 1 := ⟨a - 1, by omega⟩
      have hqr' : b * q + r = a' + b := by omega
      rcases Nat.eq_zero_or_pos q with rfl | hq1
      · exfalso
        rw [Nat.mul_zero, Nat.zero_add] at hqr'
        omega
      obtain ⟨q', rfl⟩ : ∃ q', q = q' + 1 := ⟨q - 1, by omega⟩
      rw [Nat.mul_succ] at hqr'
      apply le_antisymm
      · rw [Nat.ceil_le, div_le_iff₀ hb']
        have h1 : a' + 1 ≤ (q' + 1) * b := by
          have hmul : (q' + 1) * b = b * q' + b := by ring
          rw [hmul]
          linarith
        exact_mod_cast h1
      · have h2 : q' * b < a' + 1 := by
          rw [mul_comm]
          linarith
        have h3 : q' < ⌈((a' + 1 : Nat) : ℚ) / (b : ℚ)⌉₊ := by
          rw [Nat.lt_ceil, lt_div_iff₀ hb']
          exact_mod_cast h2
        omega
    exact key _ _ (Nat.div_add_mod _ _) (Nat.mod_lt _ hb)

/-- Concatenating the successive page windows of a list reproduces it. -/
theorem flatMap_chunks (per : Nat) (hper : 0 < per) :
    ∀ (n : Nat) (l : List α), l.length ≤ n →
      (List.range (Members.pageCount l.length per)).flatMap
        (fun i => (l.drop (i * per)).take per) = l := by
  intro n
  induction n with
  | zero =>
    intro l hl
    have hnil : l = [] := List.length_eq_zero.mp (Nat.le_zero.mp hl)
    subst hnil
    have h0 : Members.pageCount ([] : List α).length per = 0 := by
      show (([] : List α).length + per - 1) / per = 0
      rw [List.length_nil]
      exact Nat.div_eq_of_lt (by omega)
    rw [h0]
    rfl
  | succ n ih =>
    intro l hl
    rcases l with _ | ⟨x, xs⟩
    · have h0 : Members.pageCount ([] : List α).length per = 0 := by
        show (([] : List α).length + per - 1) / per = 0
        rw [List.length_nil]
        exact Nat.div_eq_of_lt (by omega)
      rw [h0]
      rfl
    · have hpc : Members.pageCount ((x :: xs).length) per =
          Members.pageCount ((x :: xs).drop per).length per + 1 := by
        rw [List.length_drop]
        show (xs.length + 1 + per - 1) / per =
          (xs.length + 1 - per + per - 1) / per + 1
        rcases le_or_lt per (xs.length + 1) with h | h
        · have e1 : xs.length + 1 + per - 1 =
              (xs.length + 1 - per + per - 1) + per := by omega
          rw [e1, Nat.add_div_right _ hper]
        · have e2 : xs.length + 1 - per = 0 := by omega
          have e1 : xs.length + 1 + per - 1 = xs.length + per := by omega
          rw [e1, e2, Nat.add_div_right _ hper,
              Nat.div_eq_of_lt (show xs.length < per by omega),
              Nat.div_eq_of_lt (show 0 + per - 1 < per by omega)]
      have hdrop : ∀ i : Nat, (x :: xs).drop ((i + 1) * per) =
          ((x :: xs).drop per).drop (i * per) := by
        intro i
        rw [List.drop_drop]
        congr 1
        ring
      rw [hpc, List.range_succ_eq_map, List.flatMap_cons, List.flatMap_map]
      simp only [Nat.succ_eq_add_one, Nat.zero_mul, List.drop_zero, hdrop]
      rw [ih ((x :: xs).drop per) (by rw [List.length_drop]; simp at hl ⊢; omega)]
      exact List.take_append_drop per (x :: xs)

/-- C7: for a positive page size, the rendered page count is the ceiling
of the collection size over the page size, and the concatenation of the
windows of pages `1 .. page_count` reproduces the whole collection —
no duplicates, no omissions. -/
theorem pagination_partition (l : List α) (per : Nat) (hper : 0 < per) :
    Members.pageCount l.length per = ⌈(l.length : ℚ) / (per : ℚ)⌉₊ ∧
    (List.range (Members.pageCount l.length per)).flatMap
      (fun i => Members.pageWindow l per (i + 1)) = l := by
  constructor
  · exact (natCeil_div_eq _ _ hper).symm
  · have h := flatMap_chunks per hper l.length l le_rfl
    simpa [Members.pageWindow] using h

/-- C7 witness: five items at page size two give three pages whose
windows concatenate back to the collection. -/
theorem pagination_partition_witness :
    0 < 2 ∧
    (Members.pageCount ([10, 11, 12, 13, 14] : List Nat).length 2 =
        ⌈((([10, 11, 12, 13, 14] : List Nat).length : ℚ)) / ((2 : Nat) : ℚ)⌉₊ ∧
      (List.range
          (Members.pageCount ([10, 11, 12, 13, 14] : List Nat).length 2)).flatMap
        (fun i => Members.pageWindow ([10, 11, 12, 13, 14] : List Nat) 2 (i + 1)) =
        [10, 11, 12, 13, 14]) :=
  ⟨by decide, pagination_partition [10, 11, 12, 13, 14] 2 (by decide)⟩

/-- An older post, listed first in the fetched `posts.json` array. -/
def postOld : Blog.Post := ⟨("Alpha").data, ("Tech").data, 1⟩

/-- A newer post of the same category, listed second. -/
def postNew : Blog.Post := ⟨("Beta").data, ("Tech").data, 2⟩

/-- C8 counterexample: after filtering by category `tech`, the first
page window lists the older post before the newer one — the filtered
collection is rebuilt from the unsorted master array and is not
date-descending-sorted. -/
theorem blog_filtered_window_not_sorted :
    Members.pageWindow
        (Blog.filterPosts (Blog.loadPosts [postOld, postNew])
          (("tech").data)).filtered 9 1 = [postOld, postNew] ∧
    ¬ List.Sorted Blog.dateDescLe
        (Blog.filterPosts (Blog.loadPosts [postOld, postNew])
          (("tech").data)).filtered := by
  constructor
  · decide
  · decide

instance : IsTotal Blog.Post Blog.dateDescLe :=
  ⟨fun a b => le_total b.date a.date⟩

instance : IsTrans Blog.Post Blog.dateDescLe :=
  ⟨fun _ _ _ hab hbc => le_trans hbc hab⟩

/-- C8 (amended): the date-descending sort is applied to the blog
collection only once, at load time, to the unfiltered copy — which is
then a date-descending permutation of the posts; filtering by a
category rebuilds the visible collection from the unsorted master array
by the category test alone, preserving `posts.json` order, with no sort
before pagination. -/
theorem blog_sort_at_load_only (posts : List Blog.Post) (cat : Str)
    (hcat : cat ≠ []) :
    List.Sorted Blog.dateDescLe (Blog.loadPosts posts).filtered ∧
    (Blog.loadPosts posts).filtered.Perm posts ∧
    (Blog.filterPosts (Blog.loadPosts posts) cat).filtered =
      posts.filter (Blog.categoryMatches cat) := by
  refine ⟨List.sorted_insertionSort _ _, List.perm_insertionSort _ _, ?_⟩
  simp [Blog.filterPosts, Blog.loadPosts, hcat]

/-- C8 witness: the amended behaviour at the two concrete posts and the
concrete category `tech`. -/
theorem blog_sort_at_load_only_witness :
    List.Sorted Blog.dateDescLe (Blog.loadPosts [postOld, postNew]).filtered ∧
    (Blog.loadPosts [postOld, postNew]).filtered.Perm [postOld, postNew] ∧
    (Blog.filterPosts (Blog.loadPosts [postOld, postNew])
        (("tech").data)).filtered =
      [postOld, postNew].filter (Blog.categoryMatches (("tech").data)) :=
  blog_sort_at_load_only [postOld, postNew] (("tech").data) (by decide)

/-!
## Claims about the forms handler
-/

/-- Object assignment passes over an entry whose key differs. -/
theorem objInsert_head_skip (d : List (Str × Str)) (a b k v : Str) (h : k ≠ a) :
    Forms.objInsert ((a, b) :: d) k v = (a, b) :: Forms.objInsert d k v := by
  simp only [Forms.objInsert]
  rw [if_neg (Ne.symm h)]

/-- The keys after an object assignment: the new key or an old one. -/
theorem objInsert_keys (d : List (Str × Str)) (k v x : Str)
    (hx : x ∈ (Forms.objInsert d k v).map Prod.fst) :
    x = k ∨ x ∈ d.map Prod.fst := by
  induction d with
  | nil => simpa [Forms.objInsert] using hx
  | cons p t ih =>
    obtain ⟨a, b⟩ := p
    by_cases hak : a = k
    · subst hak
      simp only [Forms.objInsert, if_pos rfl] at hx
      simpa using hx
    · rw [objInsert_head_skip t a b k v (Ne.symm hak)] at hx
      simp only [List.map_cons, List.mem_cons] at hx
      rcases hx with h1 | h1
      · exact Or.inr (by simp [h1])
      · rcases ih h1 with h2 | h2
        · exact Or.inl h2
        · exact Or.inr (List.mem_cons_of_mem _ h2)

/-- Keys accumulated by the save fold: from the accumulator, or a
non-honeypot field name. -/
theorem save_aux_keys (f : Forms.Form) :
    ∀ (d : List (Str × Str)) (x : Str),
      x ∈ (f.foldl (fun d' fld => if fld.name = Forms.botField then d'
          else Forms.objInsert d' fld.name fld.value) d).map Prod.fst →
      x ∈ d.map Prod.fst ∨ (x ∈ f.map Forms.Field.name ∧ x ≠ Forms.botField) := by
  induction f with
  | nil => exact fun d x hx => Or.inl hx
  | cons fld t ih =>
    intro d x hx
    simp only [List.foldl_cons] at hx
    by_cases hb : fld.name = Forms.botField
    · rw [if_pos hb] at hx
      rcases ih d x hx with h | h
      · exact Or.inl h
      · exact Or.inr ⟨List.mem_cons_of_mem _ h.1, h.2⟩
    · rw [if_neg hb] at hx
      rcases ih _ x hx with h | h
      · rcases objInsert_keys d fld.name fld.value x h with rfl | h2
        · exact Or.inr ⟨by simp, hb⟩
        · exact Or.inl h2
      · exact Or.inr ⟨List.mem_cons_of_mem _ h.1, h.2⟩

/-- Every key of a saved draft is a non-honeypot field name. -/
theorem save_keys_sub (f : Forms.Form) (x : Str)
    (hx : x ∈ (Forms.saveFormData f).map Prod.fst) :
    x ∈ f.map Forms.Field.name ∧ x ≠ Forms.botField := by
  unfold Forms.saveFormData at hx
  rcases save_aux_keys f [] x hx with h | h
  · simp at h
  · exact h

/-- The honeypot name is never written to storage. -/
theorem botField_not_saved (f : Forms.Form) :
    Forms.botField ∉ (Forms.saveFormData f).map Prod.fst := by
  intro hx
  exact (save_keys_sub f _ hx).2 rfl

/-- The save fold never disturbs an accumulator entry whose key is not a
field name of the remaining fields. -/
theorem save_aux_acc_cons (a b : Str) :
    ∀ (l : Forms.Form) (d : List (Str × Str)), a ∉ l.map Forms.Field.name →
      l.foldl (fun d' fld => if fld.name = Forms.botField then d'
          else Forms.objInsert d' fld.name fld.value) ((a, b) :: d) =
        (a, b) :: l.foldl (fun d' fld => if fld.name = Forms.botField then d'
          else Forms.objInsert d' fld.name fld.value) d := by
  intro l
  induction l with
  | nil => exact fun d _ => rfl
  | cons fld t ih =>
    intro d ha
    have hne : fld.name ≠ a := by
      intro he
      exact ha (by rw [← he]; simp)
    have ha' : a ∉ t.map Forms.Field.name := by
      intro h
      exact ha (List.mem_cons_of_mem _ h)
    simp only [List.foldl_cons]
    by_cases hb : fld.name = Forms.botField
    · rw [if_pos hb, if_pos hb, ih d ha']
    · rw [if_neg hb, if_neg hb,
        objInsert_head_skip d a b fld.name fld.value hne, ih _ ha']

/-- Saving skips a leading honeypot field. -/
theorem save_cons_bot (fld : Forms.Field) (t : Forms.Form)
    (hb : fld.name = Forms.botField) :
    Forms.saveFormData (fld :: t) = Forms.saveFormData t := by
  unfold Forms.saveFormData
  simp only [List.foldl_cons, if_pos hb]

/-- Saving a form with a fresh-named, non-honeypot head field prepends
that field's entry. -/
theorem save_cons (fld : Forms.Field) (t : Forms.Form)
    (hb : fld.name ≠ Forms.botField) (hn : fld.name ∉ t.map Forms.Field.name) :
    Forms.saveFormData (fld :: t) =
      (fld.name, fld.value) :: Forms.saveFormData t := by
  unfold Forms.saveFormData
  simp only [List.foldl_cons, if_neg hb]
  exact save_aux_acc_cons fld.name fld.value t [] hn

/-- Assigning under a different name leaves the head field alone. -/
theorem setFieldValue_skip (g : Forms.Form) (x : Forms.Field) (k v : Str)
    (h : k ≠ x.name) :
    Forms.setFieldValue (x :: g) k v = x :: Forms.setFieldValue g k v := by
  simp only [Forms.setFieldValue]
  rw [if_neg (Ne.symm h)]

/-- Restoring entries none of which is keyed by the head field's name
leaves the head field alone. -/
theorem restore_skip_head (d : List (Str × Str)) (x : Forms.Field) :
    ∀ g, (∀ k ∈ d.map Prod.fst, k ≠ x.name) →
      Forms.restoreFormData d (x :: g) = x :: Forms.restoreFormData d g := by
  induction d with
  | nil => exact fun g _ => rfl
  | cons p t ih =>
    intro g hk
    obtain ⟨k, v⟩ := p
    have hk1 : k ≠ x.name := hk k (by simp)
    have hk' : ∀ k' ∈ t.map Prod.fst, k' ≠ x.name := by
      intro k' h
      exact hk k' (List.mem_cons_of_mem _ h)
    simp only [Forms.restoreFormData, List.foldl_cons]
    rw [setFieldValue_skip g x k v hk1]
    exact ih _ hk'

/-- Save/restore round trip on forms with distinct field names: every
non-honeypot field regains its original value; the honeypot keeps the
fresh form's value. -/
theorem restore_roundtrip (f : Forms.Form) :
    ∀ g : Forms.Form, g.map Forms.Field.name = f.map Forms.Field.name →
      (f.map Forms.Field.name).Nodup →
      Forms.restoreFormData (Forms.saveFormData f) g =
        List.zipWith (fun ff gf => if ff.name = Forms.botField then gf else ff)
          f g := by
  induction f with
  | nil =>
    intro g hg _
    have hge : g = [] := List.map_eq_nil_iff.mp hg
    subst hge
    rfl
  | cons ff t ih =>
    intro g hg hnd
    rcases g with _ | ⟨gf, g'⟩
    · simp at hg
    · simp only [List.map_cons, List.cons.injEq] at hg
      obtain ⟨hname, htail⟩ := hg
      simp only [List.map_cons, List.nodup_cons] at hnd
      obtain ⟨hnmem, hnd'⟩ := hnd
      by_cases hb : ff.name = Forms.botField
      · rw [save_cons_bot ff t hb]
        have hskip : ∀ k ∈ (Forms.saveFormData t).map Prod.fst, k ≠ gf.name := by
          intro k hk
          rw [hname, hb]
          exact (save_keys_sub t k hk).2
        rw [restore_skip_head _ gf g' hskip, ih g' htail hnd']
        simp [hb]
      · rw [save_cons ff t hb hnmem]
        have hset : Forms.setFieldValue (gf :: g') ff.name ff.value =
            (⟨ff.name, ff.value⟩ : Forms.Field) :: g' := by
          unfold Forms.setFieldValue
          rw [hname, if_pos rfl, if_neg hb]
        have hstep : Forms.restoreFormData
            ((ff.name, ff.value) :: Forms.saveFormData t) (gf :: g') =
            Forms.restoreFormData (Forms.saveFormData t)
              ((⟨ff.name, ff.value⟩ : Forms.Field) :: g') := by
          simp only [Forms.restoreFormData, List.foldl_cons, hset]
        rw [hstep]
        have hskip : ∀ k ∈ (Forms.saveFormData t).map Prod.fst,
            k ≠ (⟨ff.name, ff.value⟩ : Forms.Field).name := by
          intro k hk he
          exact hnmem (he ▸ (save_keys_sub t k hk).1)
        rw [restore_skip_head _ _ _ hskip, ih g' htail hnd']
        simp [hb]

/-- C9: saving a form's field values and restoring them into a freshly
rendered identical form (same field names, in order, all distinct)
reproduces the original field values exactly, except the honeypot
field, which keeps the fresh form's value — it is never written to
storage and never restored. -/
theorem formDraft_roundTrip (f g : Forms.Form)
    (hnames : g.map Forms.Field.name = f.map Forms.Field.name)
    (hnodup : (f.map Forms.Field.name).Nodup) :
    Forms.restoreFormData (Forms.saveFormData f) g =
      List.zipWith (fun ff gf => if ff.name = Forms.botField then gf else ff)
        f g ∧
    Forms.botField ∉ (Forms.saveFormData f).map Prod.fst :=
  ⟨restore_roundtrip f g hnames hnodup, botField_not_saved f⟩

/-- A concrete filled-in form, honeypot included. -/
def formFilled : Forms.Form :=
  [⟨("email").data, ("user at example dot org").data⟩,
   ⟨("bot-field").data, ("spam").data⟩,
   ⟨("message").data, ("hello").data⟩]

/-- The freshly rendered identical form: same field names, empty values. -/
def formFresh : Forms.Form :=
  [⟨("email").data, []⟩, ⟨("bot-field").data, []⟩, ⟨("message").data, []⟩]

/-- C9 witness: the round trip on the concrete three-field form. -/
theorem formDraft_roundTrip_witness :
    Forms.restoreFormData (Forms.saveFormData formFilled) formFresh =
      List.zipWith (fun ff gf => if ff.name = Forms.botField then gf else ff)
        formFilled formFresh ∧
    Forms.botField ∉ (Forms.saveFormData formFilled).map Prod.fst :=
  formDraft_roundTrip formFilled formFresh (by decide) (by decide)

/-- C10: one tracked form submission keeps the session analytics buffer
at no more than 20 entries, and when tracking is active the stored list
is exactly the at-most-20 most recent events, the oldest being
discarded when the bound would be exceeded. -/
theorem analyticsBuffer_bounded (consent : Option Forms.ConsentPrefs)
    (stored : List Forms.AnalyticsEvent) (e : Forms.AnalyticsEvent)
    (h : stored.length ≤ 20) :
    (Forms.trackFormSubmission consent stored e).length ≤ 20 ∧
    (∀ p, consent = some p → p.analytics = true →
      Forms.trackFormSubmission consent stored e =
        (stored ++ [e]).drop ((stored ++ [e]).length - 20)) := by
  rcases consent with _ | p
  · refine ⟨by simpa [Forms.trackFormSubmission] using h, ?_⟩
    intro p hp
    exact absurd hp (by simp)
  · by_cases hp : p.analytics
    · have hlen : (stored ++ [e]).length = stored.length + 1 := by simp
      by_cases hgt : (stored ++ [e]).length > 20
      · have htrack : Forms.trackFormSubmission (some p) stored e =
            (stored ++ [e]).tail := by
          show (if p.analytics = true then
              if (stored ++ [e]).length > 20 then (stored ++ [e]).tail
              else stored ++ [e]
            else stored) = (stored ++ [e]).tail
          rw [if_pos hp, if_pos hgt]
        constructor
        · rw [htrack, List.length_tail]
          omega
        · intro q hq hqa
          obtain rfl : q = p := by injection hq with h'; exact h'.symm
          rw [htrack, ← List.drop_one]
          congr 1
          omega
      · have htrack : Forms.trackFormSubmission (some p) stored e =
            stored ++ [e] := by
          show (if p.analytics = true then
              if (stored ++ [e]).length > 20 then (stored ++ [e]).tail
              else stored ++ [e]
            else stored) = stored ++ [e]
          rw [if_pos hp, if_neg hgt]
        constructor
        · rw [htrack]
          omega
        · intro q hq hqa
          rw [htrack]
          have h0 : (stored ++ [e]).length - 20 = 0 := by omega
          rw [h0, List.drop_zero]
    · constructor
      · simpa [Forms.trackFormSubmission, hp] using h
      · intro q hq hqa
        obtain rfl : q = p := by injection hq with h'; exact h'.symm
        exact absurd hqa hp

/-- A concrete tracked analytics event. -/
def eventExample : Forms.AnalyticsEvent :=
  ⟨("form_submission").data, ("contact").data, ("success").data, 0, ("en").data⟩

/-- C10 witness: tracking one event into an empty buffer under granted
analytics consent stores exactly that event. -/
theorem analyticsBuffer_bounded_witness :
    ([] : List Forms.AnalyticsEvent).length ≤ 20 ∧
    ((Forms.trackFormSubmission (some ⟨true⟩) [] eventExample).length ≤ 20 ∧
      (∀ p, (some (⟨true⟩ : Forms.ConsentPrefs)) = some p → p.analytics = true →
        Forms.trackFormSubmission (some ⟨true⟩) [] eventExample =
          (([] : List Forms.AnalyticsEvent) ++ [eventExample]).drop
            ((([] : List Forms.AnalyticsEvent) ++ [eventExample]).length - 20))) :=
  ⟨by decide, analyticsBuffer_bounded (some ⟨true⟩) [] eventExample (by decide)⟩
